import Mathlib

/-!
Shallow embedding of the `nuxt-utilities` repository's query-filter parser
(`useDrizzleRestFilter` / `useRestFilter`, files `src/unnamed/part_003` and
`src/unnamed/part_002`) and of the generic resource view
(`src/packages/viewset/src/useAPIView.ts`, with near-identical copies in
`src/unnamed/part_000` and `src/unnamed/part_001`).

JavaScript strings are embedded as `List Char`, JavaScript numbers as exact
decimal rationals (`JNum`: an integer mantissa over a power-of-ten
denominator, kept canonical).  The numeric model covers decimal literals
(optional sign, integer/fractional digits, optional exponent), which is the
grammar the filter language works with; `Number`'s hex/binary/`Infinity`
forms and IEEE-754 rounding are outside the model.  `Date` parsing is
modelled for ISO `YYYY-MM-DD` literals, with the parsed date stored under an
injective integer encoding; no date arithmetic occurs in the embedded code.
-/

deriving instance DecidableEq for Except

/-- Embedded JavaScript string. -/
abbrev Str := List Char

/-- Shorthand to turn a Lean string literal into an embedded string. -/
def toS (s : String) : Str := s.toList

/-- Whitespace recognizer used by `Number()` / `BigInt()` trimming. -/
def wsB (c : Char) : Bool := c = ' ' || c = '\t' || c = '\n' || c = '\r'

/-- Trim leading and trailing whitespace (the coercions `Number(s)` and
`BigInt(s)` do this). -/
def trimWS (s : Str) : Str :=
  ((s.dropWhile wsB).reverse.dropWhile wsB).reverse

/-- ASCII digit test. -/
def isDig (c : Char) : Bool := '0' ≤ c && c ≤ '9'

/-- Numeric value of a digit list, most significant first. -/
def digitsVal (ds : Str) : ℕ :=
  ds.foldl (fun a c => a * 10 + (c.toNat - 48)) 0

/-- `10 ^ e` over `ℤ`, by plain recursion so that it reduces in the kernel. -/
def pow10 : ℕ → ℤ
  | 0 => 1
  | e + 1 => 10 * pow10 e

/-- A JavaScript number modelled exactly: the rational `mant / 10 ^ exp10`.
Values are kept canonical (`exp10` minimal), so equality of values is
structural equality. -/
structure JNum where
  mant : ℤ
  exp10 : ℕ
deriving DecidableEq, Repr

/-- Canonicalize by stripping factors of ten shared between mantissa and
denominator. -/
def JNum.canon (a : ℤ) : ℕ → JNum
  | 0 => ⟨a, 0⟩
  | e + 1 => if a % 10 = 0 then JNum.canon (a / 10) e else ⟨a, e + 1⟩

/-- The rational value of a `JNum` (used to state properties, not to
compute). -/
def JNum.val (n : JNum) : ℚ := (n.mant : ℚ) / 10 ^ n.exp10

/-- Build the number `(ip.fp) × 10^k` from integer digits, fraction digits and
a signed base-ten exponent. -/
def JNum.ofParts (neg : Bool) (ip fp : Str) (k : ℤ) : JNum :=
  let m : ℤ := (digitsVal ip : ℤ) * pow10 fp.length + (digitsVal fp : ℤ)
  let m := if neg then -m else m
  match k with
  | .ofNat u => JNum.canon (m * pow10 u) fp.length
  | .negSucc u => JNum.canon m (fp.length + (u + 1))

/-- Integer constant as a `JNum`. -/
def JNum.ofInt (i : ℤ) : JNum := ⟨i, 0⟩

/-- `x - 1` on JavaScript numbers (used by `offset = (page - 1) * pageSize`). -/
def JNum.subOne (n : JNum) : JNum := JNum.canon (n.mant - pow10 n.exp10) n.exp10

/-- `x * k` for a natural `k` on JavaScript numbers. -/
def JNum.mulNat (n : JNum) (k : ℕ) : JNum := JNum.canon (n.mant * k) n.exp10

/-- Parse the exponent tail of a decimal literal (`e5`, `E-3`, or empty);
returns the signed base-ten exponent.  `none` models `NaN`. -/
def parseExpTail (r : Str) : Option ℤ :=
  match r with
  | [] => some 0
  | e :: r2 =>
    if e = 'e' ∨ e = 'E' then
      match r2 with
      | '-' :: ds => if ds ≠ [] ∧ ds.all isDig then some (-(digitsVal ds : ℤ)) else none
      | '+' :: ds => if ds ≠ [] ∧ ds.all isDig then some (digitsVal ds) else none
      | ds => if ds ≠ [] ∧ ds.all isDig then some (digitsVal ds) else none
    else none

/-- Parse an unsigned decimal literal (`12`, `1.5`, `.5`, `1.`, optional
exponent); `none` models `NaN`. -/
def parseDec (neg : Bool) (s : Str) : Option JNum :=
  let ip := s.takeWhile isDig
  let r1 := s.dropWhile isDig
  match r1 with
  | '.' :: r2 =>
    let fp := r2.takeWhile isDig
    let r3 := r2.dropWhile isDig
    if ip = [] ∧ fp = [] then none
    else (parseExpTail r3).map (JNum.ofParts neg ip fp)
  | _ =>
    if ip = [] then none
    else (parseExpTail r1).map (JNum.ofParts neg ip [])

/-- Model of JavaScript `Number(s)` on strings: `none` stands for `NaN`. -/
def jsNumberQ (s : Str) : Option JNum :=
  let t := trimWS s
  if t = [] then some (JNum.ofInt 0)
  else
    match t with
    | '-' :: r => parseDec true r
    | '+' :: r => parseDec false r
    | _ => parseDec false t

/-- Model of `Number.isSafeInteger` on the exact value of a decimal literal. -/
def isSafeIntQ (q : JNum) : Bool := q.exp10 = 0 && q.mant.natAbs ≤ 9007199254740991

/-- Model of `BigInt(s)`: `none` models the thrown `SyntaxError`.  `BigInt`
accepts optionally signed digit strings (and an empty string as zero). -/
def jsBigIntQ (s : Str) : Option ℤ :=
  let t := trimWS s
  if t = [] then some 0
  else
    match t with
    | '-' :: r => if r ≠ [] ∧ r.all isDig then some (-(digitsVal r : ℤ)) else none
    | '+' :: r => if r ≠ [] ∧ r.all isDig then some (digitsVal r) else none
    | _ => if t.all isDig then some (digitsVal t) else none

/-- Model of `new Date(s)` validity for ISO `YYYY-MM-DD` literals; the result
is an injective integer encoding of the date.  `none` models `Invalid Date`. -/
def jsDateQ (s : Str) : Option ℤ :=
  match s with
  | [y1, y2, y3, y4, '-', m1, m2, '-', d1, d2] =>
    if [y1, y2, y3, y4, m1, m2, d1, d2].all isDig then
      let m := digitsVal [m1, m2]
      let d := digitsVal [d1, d2]
      if 1 ≤ m ∧ m ≤ 12 ∧ 1 ≤ d ∧ d ≤ 31 then
        some ((digitsVal [y1, y2, y3, y4] : ℤ) * 10000 + m * 100 + d)
      else none
    else none
  | _ => none

/-- Scalar values produced by the coercers (§3 `ScalarValue`): JS string,
number, boolean, `null`, bigint, `Date`. -/
inductive Scalar where
  | str (s : Str)
  | num (q : JNum)
  | bool (b : Bool)
  | null
  | big (i : ℤ)
  | date (code : ℤ)
deriving DecidableEq, Repr

/-- Model of JavaScript `typeof` on the scalar values above (used by
`castArray`'s homogeneity check; note `typeof null` and `typeof Date` are
both `"object"`). -/
def jsTypeof : Scalar → String
  | .str _ => "string"
  | .num _ => "number"
  | .bool _ => "boolean"
  | .null => "object"
  | .big _ => "bigint"
  | .date _ => "object"

/-- JSON-like values appearing in decoded filter objects: a scalar, an array,
or a nested object (association list in insertion order). -/
inductive JVal where
  | sc (v : Scalar)
  | arr (xs : List JVal)
  | obj (fs : List (Str × JVal))

/-- Error kinds.  The first five are the errors the source can actually throw;
`zodError` stands for a Zod schema-validation failure.  `notFound` and
`unknownFilterField` are the error kinds named by the specification (§7) and
appear here only so that claims about them can be stated — the embedded code
never constructs either. -/
inductive VErr where
  | jsError (msg : String)
  | notNumberish
  | typeMismatch
  | bigIntSyntax
  | notImplementedMultiKey
  | zodError
  | notFound
  | unknownFilterField (key : Str)
deriving DecidableEq, Repr

/-- `castValue` from `src/unnamed/part_003` lines 45–71: ordered coercion of a
raw token.  The `BigInt(value)` call throws (`bigIntSyntax`) when `value` is
numeric but not an integer literal. -/
def castValue (value : Str) : Except VErr Scalar :=
  if value = [] then .ok (.str [])
  else
    if value.map Char.toLower = toS "true" then .ok (.bool true)
    else if value.map Char.toLower = toS "false" then .ok (.bool false)
    else if value.map Char.toLower = toS "null" then .ok .null
    else
      match jsNumberQ value with
      | some q =>
        if isSafeIntQ q then .ok (.num q)
        else
          match jsBigIntQ value with
          | some i => .ok (.big i)
          | none => .error .bigIntSyntax
      | none =>
        match jsDateQ value with
        | some t => .ok (.date t)
        | none => .ok (.str value)

/-- `castNumberish` from `src/unnamed/part_003` lines 73–86. -/
def castNumberish (value : Str) : Except VErr Scalar :=
  match jsNumberQ value with
  | some q =>
    if isSafeIntQ q then .ok (.num q)
    else
      match jsBigIntQ value with
      | some i => .ok (.big i)
      | none => .error .bigIntSyntax
  | none =>
    match jsDateQ value with
    | some t => .ok (.date t)
    | none => .error .notNumberish

/-- Element-wise `castValue` over an array (`value.map(castValue)`), with the
first thrown error propagating. -/
def castList : List Str → Except VErr (List Scalar)
  | [] => .ok []
  | v :: rest =>
    match castValue v with
    | .error e => .error e
    | .ok s =>
      match castList rest with
      | .error e => .error e
      | .ok t => .ok (s :: t)

/-- `castArray` from `src/unnamed/part_003` lines 88–97: element-wise cast and
the `typeof`-homogeneity check. -/
def castArray (values : List Str) : Except VErr (List Scalar) :=
  match castList values with
  | .error e => .error e
  | .ok arr =>
    match arr with
    | [] => .ok []
    | a :: rest =>
      if rest.all (fun v => jsTypeof v = jsTypeof a) then .ok (a :: rest)
      else .error .typeMismatch

/-- Operator keys of the decoded filter records (`$eq`, `$like`, …). -/
def kNull : Str := toS "$null"

/-- `$eq`. -/
def kEq : Str := toS "$eq"

/-- `$ne`. -/
def kNe : Str := toS "$ne"

/-- `$gt`. -/
def kGt : Str := toS "$gt"

/-- `$gte`. -/
def kGte : Str := toS "$gte"

/-- `$lt`. -/
def kLt : Str := toS "$lt"

/-- `$lte`. -/
def kLte : Str := toS "$lte"

/-- `$in`. -/
def kIn : Str := toS "$in"

/-- `$nin`. -/
def kNin : Str := toS "$nin"

/-- `$like`. -/
def kLike : Str := toS "$like"

/-- `$nlike`. -/
def kNlike : Str := toS "$nlike"

/-- `$ilike`. -/
def kIlike : Str := toS "$ilike"

/-- `$nilike`. -/
def kNilike : Str := toS "$nilike"

/-- `$between`. -/
def kBetween : Str := toS "$between"

/-- `$nbetween`. -/
def kNbetween : Str := toS "$nbetween"

/-- `$contained`. -/
def kContained : Str := toS "$contained"

/-- `$contains`. -/
def kContains : Str := toS "$contains"

/-- `$and`. -/
def kAnd : Str := toS "$and"

/-- `$or`. -/
def kOr : Str := toS "$or"

/-- `$not`. -/
def kNot : Str := toS "$not"

/-- Does a JS object (association list in insertion order) own a key? -/
def hasKeyA {κ α : Type} [DecidableEq κ] (k : κ) : List (κ × α) → Bool
  | [] => false
  | (k', _) :: t => k' = k || hasKeyA k t

/-- Property read `o[k]`. -/
def lookupA {κ α : Type} [DecidableEq κ] (k : κ) : List (κ × α) → Option α
  | [] => none
  | (k', v) :: t => if k' = k then some v else lookupA k t

/-- Property write `o[k] = v`: updates in place when present (JS objects keep
the original insertion position), appends otherwise. -/
def setKeyA {κ α : Type} [DecidableEq κ] (k : κ) (v : α) : List (κ × α) → List (κ × α)
  | [] => [(k, v)]
  | (k', w) :: t => if k' = k then (k', v) :: t else (k', w) :: setKeyA k v t

/-- Property delete `delete o[k]`. -/
def removeKeyA {κ α : Type} [DecidableEq κ] (k : κ) : List (κ × α) → List (κ × α)
  | [] => []
  | (k', v) :: t => if k' = k then removeKeyA k t else (k', v) :: removeKeyA k t

/-- Boolean prefix test on embedded strings (JS `value.startsWith(p)`). -/
def isPreB : Str → Str → Bool
  | [], _ => true
  | _ :: _, [] => false
  | a :: as, b :: bs => a = b && isPreB as bs

/-- JS `value.startsWith(p)` with a literal prefix. -/
def startsW (p : String) (s : Str) : Bool := isPreB (toS p) s

/-- JS `value.includes('..')`. -/
def containsDots : Str → Bool
  | [] => false
  | '.' :: '.' :: _ => true
  | _ :: t => containsDots t

/-- JS `value.split(sep)` for a single-character separator (leftmost-first
scan; `''.split(sep) = ['']`). -/
def splitOnChar (sep : Char) : Str → List Str
  | [] => [[]]
  | c :: t =>
    if c = sep then [] :: splitOnChar sep t
    else
      match splitOnChar sep t with
      | [] => [[c]]
      | h :: r => (c :: h) :: r

/-- JS `value.split('..')` (leftmost-first scan over the two-character
separator). -/
def splitDots : Str → List Str
  | [] => [[]]
  | '.' :: '.' :: t => [] :: splitDots t
  | c :: t =>
    match splitDots t with
    | [] => [[c]]
    | h :: r => (c :: h) :: r

/-- The string the range branch splits: `startsWith('!')` strips the leading
negation first. -/
def rangeCore (value : Str) : Str :=
  if startsW "!" value then value.drop 1 else value

/-- The `i`-th component of the destructured `split('..')` (JS yields
`undefined` for a missing component; the guard `includes('..')` makes the
first two components exist). -/
def rangePart (i : ℕ) (value : Str) : Str :=
  (splitDots (rangeCore value)).getD i []

/-- Lift a `castNumberish` result into a single-key decoded record. -/
def numberishRec (k : Str) (rest : Str) : Except VErr (List (Str × JVal)) :=
  match castNumberish rest with
  | .error e => .error e
  | .ok v => .ok [(k, .sc v)]

/-- The `// range` branch of `decodeValue` (`value.includes('..')`). -/
def decodeRange (value : Str) : Except VErr (List (Str × JVal)) :=
  match castArray [rangePart 0 value, rangePart 1 value] with
  | .error e => .error e
  | .ok arr =>
    if startsW "!" value then .ok [(kNbetween, .arr (arr.map .sc))]
    else .ok [(kBetween, .arr (arr.map .sc))]

/-- The `// array` branch of `decodeValue` (`value.includes(',')`): `@>`
gives `$contained`, `@` gives `$contains` on the raw remainder, `!` gives
`$nin`, else `$in`. -/
def decodeCSV (value : Str) : Except VErr (List (Str × JVal)) :=
  if startsW "@>" value then
    match castList (splitOnChar ',' (value.drop 2)) with
    | .error e => .error e
    | .ok vs => .ok [(kContained, .arr (vs.map .sc))]
  else if startsW "@" value then .ok [(kContains, .sc (.str (value.drop 1)))]
  else if startsW "!" value then
    match castArray (splitOnChar ',' (value.drop 1)) with
    | .error e => .error e
    | .ok vs => .ok [(kNin, .arr (vs.map .sc))]
  else
    match castArray (splitOnChar ',' value) with
    | .error e => .error e
    | .ok vs => .ok [(kIn, .arr (vs.map .sc))]

/-- The trailing prefix chain of `decodeValue`, in the source's order:
`~` / `!~` / `~*` / `!~*` / `!` / fallback `$eq`.  (Because `~` is tested
before `~*` and `!~` before `!~*`, the `$ilike` and `$nilike` branches
cannot fire.) -/
def decodeLikeNeq (value : Str) : Except VErr (List (Str × JVal)) :=
  if startsW "~" value then .ok [(kLike, .sc (.str (value.drop 1)))]
  else if startsW "!~" value then .ok [(kNlike, .sc (.str (value.drop 2)))]
  else if startsW "~*" value then .ok [(kIlike, .sc (.str (value.drop 2)))]
  else if startsW "!~*" value then .ok [(kNilike, .sc (.str (value.drop 3)))]
  else if startsW "!" value then .ok [(kNe, .sc (.str (value.drop 1)))]
  else .ok [(kEq, .sc (.str value))]

/-- The non-numeric tail of `decodeValue`: comparison prefixes, then range,
then comma forms, then the like/neq chain. -/
def decodeTail (value : Str) : Except VErr (List (Str × JVal)) :=
  if startsW ">=" value then numberishRec kGte (value.drop 2)
  else if startsW "<=" value then numberishRec kLte (value.drop 2)
  else if startsW ">" value then numberishRec kGt (value.drop 1)
  else if startsW "<" value then numberishRec kLt (value.drop 1)
  else if containsDots value then decodeRange value
  else if value.contains ',' then decodeCSV value
  else decodeLikeNeq value

/-- `decodeValue` from `src/unnamed/part_003` lines 99–153: the operator
decoder.  The branch order is exactly the source's: empty / `"!"` / numeric /
`>=` `<=` `>` `<` / range `..` / comma forms / `~` / `!~` / `~*` / `!~*` /
`!` / fallback `$eq`; the stages after the numeric test are split out into
`decodeTail`, `decodeRange`, `decodeCSV` and `decodeLikeNeq` above. -/
def decodeValue (value : Str) : Except VErr (List (Str × JVal)) :=
  if value = [] then .ok [(kNull, .sc (.bool true))]
  else if value = ['!'] then .ok [(kNull, .sc (.bool false))]
  else
    match jsNumberQ value with
    | some q => .ok [(kEq, .sc (.num q))]
    | none => decodeTail value

/-- Loop body of `handleArray` (`src/unnamed/part_003` lines 155–188): decode
each element; a single-key record merges into the accumulated object, a
duplicate key wraps both occurrences into `$and`; a record with any other
number of keys throws `Not implemented`. -/
def handleArrayGo : List Str → List (Str × JVal) → Except VErr (List (Str × JVal))
  | [], acc => .ok acc
  | v :: rest, acc =>
    match decodeValue v with
    | .error e => .error e
    | .ok dec =>
      match dec with
      | [(k, dv)] =>
        if hasKeyA k acc then
          let old := (lookupA k acc).getD (.sc .null)
          handleArrayGo rest
            (removeKeyA k (setKeyA kAnd (.arr [.obj [(k, old)], .obj [(k, dv)]]) acc))
        else handleArrayGo rest (acc ++ [(k, dv)])
      | _ => .error .notImplementedMultiKey

/-- `handleArray` from `src/unnamed/part_003` lines 155–188.  Elements of the
embedded array are strings, so the source's `typeof v === 'object'` branch
cannot arise here. -/
def handleArray (values : List Str) : Except VErr (List (Str × JVal)) :=
  handleArrayGo values []

/-- A query-parameter value as produced by `ufo`'s `getQuery`: a single
string, or an array of strings for repeated keys. -/
inductive QV where
  | one (v : Str)
  | many (vs : List Str)
deriving DecidableEq, Repr

/-- Insert one `key=value` pair into a parsed query object, turning repeated
keys into arrays (models `ufo`'s accumulation). -/
def insertQP (k v : Str) : List (Str × QV) → List (Str × QV)
  | [] => [(k, .one v)]
  | (k', q) :: t =>
    if k' = k then
      (match q with
       | .one v0 => (k', QV.many [v0, v])
       | .many vs => (k', QV.many (vs ++ [v]))) :: t
    else (k', q) :: insertQP k v t

/-- Model of `ufo`'s `getQuery` on an (un-escaped) query string: split on
`&`, split each non-empty part at the first `=` (missing `=` gives an empty
value), accumulate repeated keys into arrays.  Percent-decoding is not
modelled. -/
def getQueryM (s : Str) : List (Str × QV) :=
  (splitOnChar '&' s).foldl
    (fun acc p =>
      if p = [] then acc
      else
        let k := p.takeWhile (fun c => !(c = '='))
        let v := (p.dropWhile (fun c => !(c = '='))).drop 1
        insertQP k v acc)
    []

/-- The shared per-key loop of `parseAndOrNot` and `processQuery`: a string
value goes through `decodeValue`, an array value through `handleArray`. -/
def parseFields : List (Str × QV) → List (Str × JVal) → Except VErr (List (Str × JVal))
  | [], acc => .ok acc
  | (k, QV.one s) :: t, acc =>
    match decodeValue s with
    | .error e => .error e
    | .ok r => parseFields t (setKeyA k (.obj r) acc)
  | (k, QV.many vs) :: t, acc =>
    match handleArray vs with
    | .error e => .error e
    | .ok r => parseFields t (setKeyA k (.obj r) acc)

/-- `parseAndOrNot` from `src/unnamed/part_003` lines 190–205: strip the
surrounding parentheses, translate `|` to `&`, re-tokenize as a query string
and decode each field.  (`value.substring(1, len-1)` is modelled for the
`len ≥ 2` inputs the grammar produces.) -/
def parseAndOrNot (value : Str) : Except VErr (List (Str × JVal)) :=
  let clean := (value.drop 1).dropLast
  let toks := clean.map (fun c => if c = '|' then '&' else c)
  parseFields (getQueryM toks) []

/-- The reserved query keys destructured away by `processQuery`. -/
def reservedKeys : List Str :=
  [toS "and", toS "or", toS "not", toS "page", toS "size", toS "sort", toS "q"]

/-- JavaScript truthiness of an optional query value (`undefined` and `''`
are falsy; arrays are always truthy). -/
def truthyQ : Option QV → Bool
  | none => false
  | some (QV.one s) => !(s = [])
  | some (QV.many _) => true

/-- Attach one grouped combinator (`filter.$and = parseAndOrNot(and)` etc.)
when the reserved value is truthy.  A repeated (array-valued) reserved key
would make `value.substring` throw in the source; this is modelled as a
`TypeError`. -/
def addGroup (key : Str) (v : Option QV) (f : List (Str × JVal)) :
    Except VErr (List (Str × JVal)) :=
  if truthyQ v then
    match v with
    | some (QV.one s) =>
      match parseAndOrNot s with
      | .error e => .error e
      | .ok r => .ok (setKeyA key (.obj r) f)
    | some (QV.many _) => .error (.jsError "TypeError: value.substring is not a function")
    | none => .ok f
  else .ok f

/-- Result record of `processQuery`: the filter object plus the reserved
parameters with their defaults (`page → 1`, `size → 10`, `sort → 'id'`,
`q → ''`).  Numeric fields use `none` for `NaN`. -/
structure Processed where
  filter : List (Str × JVal)
  page : Option JNum
  size : Option JNum
  sort : QV
  searchQuery : QV

/-- `page ? Number(page) : 1` (and the analogous `size` default).  `Number`
of an array value is not modelled (`none`). -/
def numericParam (v : Option QV) (dflt : ℤ) : Option JNum :=
  if truthyQ v then
    match v with
    | some (QV.one s) => jsNumberQ s
    | _ => none
  else some (JNum.ofInt dflt)

/-- `processQuery` from `src/unnamed/part_003` lines 232–260: destructure the
reserved keys, decode every remaining key into the filter object (no
allow-list is consulted), then attach `$and` / `$or` / `$not` groups;
`qvOr` below is the `x || default` fallback used for `sort` and `q`. -/
def qvOr (v : Option QV) (dflt : Str) : QV :=
  match v with
  | some x => if truthyQ (some x) then x else QV.one dflt
  | none => QV.one dflt

/-- See the doc comment above `qvOr` (`x || dflt` on a query value). -/
def processQuery (q : List (Str × QV)) : Except VErr Processed :=
  match parseFields (q.filter (fun kv => !(reservedKeys.any (fun r => r = kv.1)))) [] with
  | .error e => .error e
  | .ok f0 =>
    match addGroup kAnd (lookupA (toS "and") q) f0 with
    | .error e => .error e
    | .ok f1 =>
      match addGroup kOr (lookupA (toS "or") q) f1 with
      | .error e => .error e
      | .ok f2 =>
        match addGroup kNot (lookupA (toS "not") q) f2 with
        | .error e => .error e
        | .ok f3 =>
          .ok { filter := f3
                page := numericParam (lookupA (toS "page") q) 1
                size := numericParam (lookupA (toS "size") q) 10
                sort := qvOr (lookupA (toS "sort") q) (toS "id")
                searchQuery := qvOr (lookupA (toS "q") q) [] }

/-- Sort direction of one ordering token. -/
inductive Dir where
  | asc
  | desc
deriving DecidableEq, Repr

/-- One token of the order query string is accepted by the source's regex
`[-]?(f1|f2|…)` exactly when it is an allow-listed field with an optional
leading dash.  (The regex is built by joining the field names with `|`; this
language model is faithful for field names free of regex metacharacters and
of `,`, which column identifiers are.) -/
def orderTokOK (fields : List Str) (t : Str) : Bool :=
  fields.contains t || (startsW "-" t && fields.contains (t.drop 1))

/-- Acceptance of the whole anchored regex
`^([-]?(f…)(?:,[-]?(f…))*)?$` from `useAPIView.ts` line 135. -/
def regexAccepts (fields : List Str) (s : Str) : Bool :=
  s = [] || (splitOnChar ',' s).all (orderTokOK fields)

/-- Map one token to its `(field, direction)` pair: `part.replace(/^[-]/,'')`
plus `part.startsWith('-')`. -/
def parseTok (t : Str) : Str × Dir :=
  if startsW "-" t then (t.drop 1, Dir.desc) else (t, Dir.asc)

/-- `parseOrderQueryString` from
`src/packages/viewset/src/useAPIView.ts` lines 131–150: validate against the
field regex (a Zod failure, `zodError`, when it does not match), then split,
map each token to a direction and accumulate into an object (later duplicate
fields overwrite in place), returning `undefined` (`none`) for an empty
object.  `buildOrdering` is the split/map/reduce accumulation. -/
def buildOrdering (s : Str) : List (Str × Dir) :=
  ((splitOnChar ',' s).map parseTok).foldl (fun acc p => setKeyA p.1 p.2 acc) []

/-- See the doc comment above `buildOrdering`. -/
def parseOrderQueryString (s : Str) (fields : List Str) :
    Except VErr (Option (List (Str × Dir))) :=
  if regexAccepts fields s then
    if (buildOrdering s).length > 0 then .ok (some (buildOrdering s)) else .ok none
  else .error .zodError

/-- A database row: column name to scalar value, as returned by the
data-access collaborator (§6). -/
abbrev Row := List (String × Scalar)

/-- A Zod object schema, modelled by its shape: field names with a predicate
each.  `parse` requires every field, validates it, and strips unknown keys. -/
structure ZodObj where
  fields : List (String × (Scalar → Bool))

/-- `schema.parse(o)` on an object: validate and project the schema fields in
shape order. -/
def zodFields : List (String × (Scalar → Bool)) → Row → Except VErr Row
  | [], _ => .ok []
  | (k, p) :: rest, r =>
    match lookupA k r with
    | none => .error .zodError
    | some v =>
      if p v then
        match zodFields rest r with
        | .error e => .error e
        | .ok t => .ok ((k, v) :: t)
      else .error .zodError

/-- `schema.parse(x)` where `x` may be `undefined` (`none`): a Zod object
schema rejects `undefined` with an `invalid_type` issue. -/
def zodParse (z : ZodObj) : Option Row → Except VErr Row
  | none => .error .zodError
  | some r => zodFields z.fields r

/-- `z.array(schema).parse(results)`. -/
def zodList (z : ZodObj) : List Row → Except VErr (List Row)
  | [] => .ok []
  | r :: t =>
    match zodFields z.fields r with
    | .error e => .error e
    | .ok r' =>
      match zodList z t with
      | .error e => .error e
      | .ok t' => .ok (r' :: t')

/-- `fieldsToColumns(model, schema)` followed by the select: the row comes
back restricted to the schema's columns. -/
def projRow (z : ZodObj) (r : Row) : Row :=
  z.fields.filterMap (fun kp => (lookupA kp.1 r).map (fun v => (kp.1, v)))

/-- The `where(eq(model[primaryKey], pk))` predicate on one row. -/
def rowMatches (pkCol : String) (pkVal : Scalar) (r : Row) : Bool :=
  lookupA pkCol r = some pkVal

/-- `retrieve` from `src/packages/viewset/src/useAPIView.ts` lines 264–275:
select the schema columns of the rows matching the key, then
`schema.parse(results[0])` — with zero rows this parses `undefined`. -/
def retrieveOp (rows : List Row) (pkCol : String) (pkVal : Scalar) (z : ZodObj) :
    Except VErr Row :=
  let results := (rows.filter (rowMatches pkCol pkVal)).map (projRow z)
  zodParse z results.head?

/-- SQL `SET` semantics of `db.update(model).set(values)` on one row:
overwrite the given columns, keep the rest. -/
def setRowVals (r : Row) (values : Row) : Row :=
  values.foldl (fun acc kv => setKeyA kv.1 kv.2 acc) r

/-- `update` from `src/packages/viewset/src/useAPIView.ts` lines 277–290:
validate the body against the update schema, update the matching rows, then
return `_schema.retrieve.parse(result[0])` — the *retrieve* schema. -/
def updateOp (rows : List Row) (pkCol : String) (pkVal : Scalar)
    (zUpdate zRetrieve : ZodObj) (body : Row) : Except VErr Row :=
  match zodParse zUpdate (some body) with
  | .error e => .error e
  | .ok values =>
    let updated := (rows.filter (rowMatches pkCol pkVal)).map (fun r => setRowVals r values)
    zodParse zRetrieve updated.head?

/-- The `canPaginate` option: `'auto' | true | false` in the source; the
specification calls the last two `Forced` and `Disabled`. -/
inductive CanPaginate where
  | auto
  | forced
  | disabled
deriving DecidableEq, Repr

/-- The pagination decision of `list` (`useAPIView.ts` lines 211–236):
whether to paginate, the numeric value of the `page` variable
(`(query.page as number) || 1` — only a missing or empty-string parameter is
falsy), and the computed offset `(page - 1) * pageSize`.  `none` models
`NaN`. -/
structure PageResolution where
  enabled : Bool
  pageNum : Option JNum
  offset : Option JNum
deriving DecidableEq, Repr

/-- Pagination resolver extracted from `list`:
`paginate = (canPaginate === 'auto' && query.page !== undefined) || canPaginate === true`,
`page = query.page || 1`, `offset = (page - 1) * pageSize`. -/
def pageVar (queryPage : Option String) : Option JNum :=
  match queryPage with
  | none => some (JNum.ofInt 1)
  | some s => if s = "" then some (JNum.ofInt 1) else jsNumberQ s.toList

/-- See the doc comment above `pageVar`. -/
def resolvePagination (queryPage : Option String) (canPaginate : CanPaginate)
    (pageSize : ℕ) : PageResolution :=
  { enabled := (decide (canPaginate = .auto) && queryPage.isSome)
      || decide (canPaginate = .forced)
    pageNum := pageVar queryPage
    offset := (pageVar queryPage).map (fun p => p.subOne.mulNat pageSize) }

/-- Result of `list`: the paginated envelope or the plain validated rows. -/
inductive ListOut where
  | plain (results : List Row)
  | paged (pageNum : Option JNum) (pageSize : ℕ) (count : ℕ) (pageCount : ℕ)
      (results : List Row)
deriving DecidableEq, Repr

/-- `Math.ceil(count / pageSize)` on naturals (for `pageSize > 0`). -/
def ceilNat (c ps : ℕ) : ℕ := (c + ps - 1) / ps

/-- `list` from `src/packages/viewset/src/useAPIView.ts` lines 200–249.
`allRows` is the row sequence the data-access collaborator would return for
the query before `limit/offset` (filtering is disabled in the source —
`const filtering = undefined` — and ordering only permutes this sequence).
In paginated mode each row carries the window count `count(*) over()`, which
equals `allRows.length`; the source then reads `results[0].count ?? results.length`,
which throws a `TypeError` when the page slice is empty.  A non-integer or
negative offset is rejected by the database (`jsError`). -/
def listOp (allRows : List Row) (queryPage : Option String)
    (canPaginate : CanPaginate) (pageSize : ℕ) (z : ZodObj) : Except VErr ListOut :=
  if (resolvePagination queryPage canPaginate pageSize).enabled then
    match (resolvePagination queryPage canPaginate pageSize).offset with
    | none => .error (.jsError "SQL error: OFFSET is NaN")
    | some off =>
      if off.exp10 = 0 ∧ 0 ≤ off.mant then
        match ((allRows.map (projRow z)).drop off.mant.toNat).take pageSize with
        | [] => .error (.jsError "TypeError: cannot read count of undefined")
        | r :: rest =>
          match zodList z (r :: rest) with
          | .error e => .error e
          | .ok parsed =>
            .ok (.paged (resolvePagination queryPage canPaginate pageSize).pageNum
              pageSize allRows.length (ceilNat allRows.length pageSize) parsed)
      else .error (.jsError "SQL error: OFFSET must not be negative or fractional")
  else
    match allRows.map (projRow z) with
    | [] => .error (.jsError "TypeError: cannot read count of undefined")
    | r :: rest =>
      match zodList z (r :: rest) with
      | .error e => .error e
      | .ok parsed => .ok (.plain parsed)

/-! ### Which errors each parser stage can produce -/

/-- `castValue` can only throw the `BigInt` conversion error. -/
theorem castValue_error {v : Str} {e : VErr} (h : castValue v = .error e) :
    e = .bigIntSyntax := by
  unfold castValue at h
  repeat' split at h
  all_goals cases h
  rfl

/-- `castNumberish` throws only the `BigInt` or non-numberish errors. -/
theorem castNumberish_error {v : Str} {e : VErr} (h : castNumberish v = .error e) :
    e = .bigIntSyntax ∨ e = .notNumberish := by
  unfold castNumberish at h
  repeat' split at h
  all_goals cases h
  all_goals simp

/-- `castList` propagates only `castValue` errors. -/
theorem castList_error {vs : List Str} {e : VErr} (h : castList vs = .error e) :
    e = .bigIntSyntax := by
  induction vs with
  | nil => cases h
  | cons v rest ih =>
    unfold castList at h
    repeat' split at h
    all_goals cases h
    · exact castValue_error (by assumption)
    · exact ih (by assumption)

/-- `castArray` throws only `castValue` errors or the homogeneity error. -/
theorem castArray_error {vs : List Str} {e : VErr} (h : castArray vs = .error e) :
    e = .bigIntSyntax ∨ e = .typeMismatch := by
  unfold castArray at h
  repeat' split at h
  all_goals cases h
  · exact Or.inl (castList_error (by assumption))
  · exact Or.inr rfl

/-- Errors of the range stage come from the coercers. -/
theorem decodeRange_error {v : Str} {e : VErr} (h : decodeRange v = .error e) :
    e = .bigIntSyntax ∨ e = .typeMismatch ∨ e = .notNumberish := by
  unfold decodeRange at h
  repeat' split at h
  all_goals cases h
  rcases castArray_error (by assumption) with h' | h' <;> simp [h']

/-- Errors of the comma stage come from the coercers. -/
theorem decodeCSV_error {v : Str} {e : VErr} (h : decodeCSV v = .error e) :
    e = .bigIntSyntax ∨ e = .typeMismatch ∨ e = .notNumberish := by
  unfold decodeCSV at h
  repeat' split at h
  all_goals cases h
  · simp [castList_error (by assumption)]
  · rcases castArray_error (by assumption) with h' | h' <;> simp [h']
  · rcases castArray_error (by assumption) with h' | h' <;> simp [h']

/-- The like/neq stage never throws. -/
theorem decodeLikeNeq_error {v : Str} {e : VErr} (h : decodeLikeNeq v = .error e) :
    False := by
  unfold decodeLikeNeq at h
  repeat' split at h
  all_goals cases h

/-- Every error `decodeValue` throws comes from the coercers. -/
theorem decodeValue_error {v : Str} {e : VErr} (h : decodeValue v = .error e) :
    e = .bigIntSyntax ∨ e = .typeMismatch ∨ e = .notNumberish := by
  unfold decodeValue decodeTail numberishRec at h
  repeat' split at h
  all_goals (try cases h)
  all_goals first
    | (rcases castNumberish_error (by assumption) with h' | h' <;> simp [h'])
    | exact decodeRange_error h
    | exact decodeCSV_error h
    | exact (decodeLikeNeq_error h).elim

/-! ### Decoded records always carry exactly one operator key -/

/-- The range stage returns a single-key record. -/
theorem decodeRange_length {v : Str} {r : List (Str × JVal)}
    (h : decodeRange v = .ok r) : r.length = 1 := by
  unfold decodeRange at h
  repeat' split at h
  all_goals cases h
  all_goals rfl

/-- The comma stage returns a single-key record. -/
theorem decodeCSV_length {v : Str} {r : List (Str × JVal)}
    (h : decodeCSV v = .ok r) : r.length = 1 := by
  unfold decodeCSV at h
  repeat' split at h
  all_goals cases h
  all_goals rfl

/-- The like/neq stage returns a single-key record. -/
theorem decodeLikeNeq_length {v : Str} {r : List (Str × JVal)}
    (h : decodeLikeNeq v = .ok r) : r.length = 1 := by
  unfold decodeLikeNeq at h
  repeat' split at h
  all_goals cases h
  all_goals rfl

/-- `decodeValue` returns a single-key record on every input on which it does
not throw. -/
theorem decodeValue_length {v : Str} {r : List (Str × JVal)}
    (h : decodeValue v = .ok r) : r.length = 1 := by
  unfold decodeValue decodeTail numberishRec at h
  repeat' split at h
  all_goals (try cases h)
  all_goals first
    | rfl
    | exact decodeRange_length h
    | exact decodeCSV_length h
    | exact decodeLikeNeq_length h

/-- The single key of a range-stage record is not `$and`. -/
theorem decodeRange_key {v : Str} {k : Str} {d : JVal}
    (h : decodeRange v = .ok [(k, d)]) : k ≠ kAnd := by
  unfold decodeRange at h
  repeat' split at h
  all_goals cases h
  all_goals decide

/-- The single key of a comma-stage record is not `$and`. -/
theorem decodeCSV_key {v : Str} {k : Str} {d : JVal}
    (h : decodeCSV v = .ok [(k, d)]) : k ≠ kAnd := by
  unfold decodeCSV at h
  repeat' split at h
  all_goals cases h
  all_goals decide

/-- The single key of a like/neq-stage record is not `$and`. -/
theorem decodeLikeNeq_key {v : Str} {k : Str} {d : JVal}
    (h : decodeLikeNeq v = .ok [(k, d)]) : k ≠ kAnd := by
  unfold decodeLikeNeq at h
  repeat' split at h
  all_goals cases h
  all_goals decide

/-- The single key of a decoded record is never `$and`. -/
theorem decodeValue_key {v : Str} {k : Str} {d : JVal}
    (h : decodeValue v = .ok [(k, d)]) : k ≠ kAnd := by
  unfold decodeValue decodeTail numberishRec at h
  repeat' split at h
  all_goals (try cases h)
  all_goals first
    | decide
    | exact decodeRange_key h
    | exact decodeCSV_key h
    | exact decodeLikeNeq_key h

/-! ### The multi-key branch of `handleArray` is unreachable -/

/-- The `Not implemented` throw of `handleArray` (taken when a decoded
element spans more than one key) can never fire. -/
theorem handleArrayGo_ne_multi (vs : List Str) :
    ∀ acc, handleArrayGo vs acc ≠ .error .notImplementedMultiKey := by
  induction vs with
  | nil => intro acc h; cases h
  | cons v rest ih =>
    intro acc h
    unfold handleArrayGo at h
    split at h
    case _ heq =>
      cases h
      rcases decodeValue_error heq with h' | h' | h' <;> cases h'
    case _ dec heq =>
      split at h
      case _ k dv =>
        split at h
        · exact ih _ h
        · exact ih _ h
      case _ hne =>
        have hlen := decodeValue_length heq
        rcases List.length_eq_one.mp hlen with ⟨a, rfl⟩
        exact hne a.1 a.2 rfl

/-- `handleArray` never reports the multi-key `Not implemented` error. -/
theorem handleArray_ne_multi (vs : List Str) :
    handleArray vs ≠ .error .notImplementedMultiKey :=
  handleArrayGo_ne_multi vs []

/-! ### Error kinds reachable from the whole filter parser -/

/-- The errors `handleArray` can produce. -/
theorem handleArrayGo_error {vs : List Str} {e : VErr} :
    ∀ {acc}, handleArrayGo vs acc = .error e →
      e = .bigIntSyntax ∨ e = .typeMismatch ∨ e = .notNumberish
        ∨ e = .notImplementedMultiKey := by
  induction vs with
  | nil => intro acc h; cases h
  | cons v rest ih =>
    intro acc h
    unfold handleArrayGo at h
    split at h
    case _ heq =>
      cases h
      rcases decodeValue_error heq with h' | h' | h' <;> simp [h']
    case _ dec heq =>
      split at h
      case _ k dv =>
        split at h
        · exact ih h
        · exact ih h
      case _ hne => cases h; simp

/-- The errors `parseFields` can produce. -/
theorem parseFields_error {entries : List (Str × QV)} {e : VErr} :
    ∀ {acc}, parseFields entries acc = .error e →
      e = .bigIntSyntax ∨ e = .typeMismatch ∨ e = .notNumberish
        ∨ e = .notImplementedMultiKey := by
  induction entries with
  | nil => intro acc h; cases h
  | cons kv rest ih =>
    intro acc h
    rcases kv with ⟨k, v | vs⟩ <;> unfold parseFields at h
    · split at h
      case _ heq => cases h; rcases decodeValue_error heq with h' | h' | h' <;> simp [h']
      case _ heq => exact ih h
    · split at h
      case _ heq => cases h; exact handleArrayGo_error heq
      case _ heq => exact ih h

/-- The errors `parseAndOrNot` can produce. -/
theorem parseAndOrNot_error {v : Str} {e : VErr} (h : parseAndOrNot v = .error e) :
    e = .bigIntSyntax ∨ e = .typeMismatch ∨ e = .notNumberish
      ∨ e = .notImplementedMultiKey := by
  unfold parseAndOrNot at h
  exact parseFields_error h

/-- The errors `addGroup` can produce. -/
theorem addGroup_error {key : Str} {v : Option QV} {f : List (Str × JVal)} {e : VErr}
    (h : addGroup key v f = .error e) :
    e = .bigIntSyntax ∨ e = .typeMismatch ∨ e = .notNumberish
      ∨ e = .notImplementedMultiKey ∨ (∃ msg, e = .jsError msg) := by
  unfold addGroup at h
  repeat' split at h
  all_goals (try cases h)
  · rcases parseAndOrNot_error (by assumption) with h' | h' | h' | h' <;> simp [h']
  · exact Or.inr (Or.inr (Or.inr (Or.inr ⟨_, rfl⟩)))

/-- The errors `processQuery` can produce: coercion errors, the multi-key
throw, or a `TypeError` from an array-valued reserved key — never an
unknown-field error (no allow-list is consulted). -/
theorem processQuery_error {q : List (Str × QV)} {e : VErr}
    (h : processQuery q = .error e) :
    e = .bigIntSyntax ∨ e = .typeMismatch ∨ e = .notNumberish
      ∨ e = .notImplementedMultiKey ∨ (∃ msg, e = .jsError msg) := by
  unfold processQuery at h
  repeat' split at h
  all_goals (try cases h)
  case _ heq => rcases parseFields_error heq with h' | h' | h' | h' <;> simp [h']
  all_goals exact addGroup_error (by assumption)

/-! ### The filter object contains every non-reserved query key -/

/-- Setting a key makes it present. -/
theorem hasKeyA_setKeyA_self {α : Type} (k : Str) (v : α) (l : List (Str × α)) :
    hasKeyA k (setKeyA k v l) = true := by
  induction l with
  | nil => simp [setKeyA, hasKeyA]
  | cons p t ih =>
    unfold setKeyA
    split
    case _ heq => simp [hasKeyA, heq]
    case _ => simp [hasKeyA, ih]

/-- Setting any key preserves the presence of the others. -/
theorem hasKeyA_setKeyA_mono {α : Type} {k : Str} (k' : Str) (v : α)
    {l : List (Str × α)} (h : hasKeyA k l = true) :
    hasKeyA k (setKeyA k' v l) = true := by
  induction l with
  | nil => cases h
  | cons p t ih =>
    unfold setKeyA
    split
    case _ heq =>
      simp only [hasKeyA, Bool.or_eq_true] at h ⊢
      exact h
    case _ =>
      simp only [hasKeyA, Bool.or_eq_true] at h ⊢
      rcases h with h | h
      · exact Or.inl h
      · exact Or.inr (ih h)

/-- After `parseFields`, the result owns every processed key and every key of
the accumulator. -/
theorem parseFields_keys {entries : List (Str × QV)} {f : List (Str × JVal)} :
    ∀ {acc}, parseFields entries acc = .ok f →
      (∀ kv ∈ entries, hasKeyA kv.1 f = true)
        ∧ (∀ k, hasKeyA k acc = true → hasKeyA k f = true) := by
  induction entries with
  | nil =>
    intro acc h
    cases h
    exact ⟨by simp, fun k hk => hk⟩
  | cons kv rest ih =>
    intro acc h
    rcases kv with ⟨k, v | vs⟩ <;> unfold parseFields at h
    · split at h
      case _ => cases h
      case _ heq =>
        rcases ih h with ⟨h1, h2⟩
        refine ⟨?_, fun k' hk' => h2 k' (hasKeyA_setKeyA_mono _ _ hk')⟩
        intro kv hkv
        rcases List.mem_cons.mp hkv with rfl | hm
        · exact h2 _ (hasKeyA_setKeyA_self _ _ _)
        · exact h1 kv hm
    · split at h
      case _ => cases h
      case _ heq =>
        rcases ih h with ⟨h1, h2⟩
        refine ⟨?_, fun k' hk' => h2 k' (hasKeyA_setKeyA_mono _ _ hk')⟩
        intro kv hkv
        rcases List.mem_cons.mp hkv with rfl | hm
        · exact h2 _ (hasKeyA_setKeyA_self _ _ _)
        · exact h1 kv hm

/-- `addGroup` preserves the keys of the filter object. -/
theorem addGroup_keys {key : Str} {v : Option QV} {f f' : List (Str × JVal)}
    (h : addGroup key v f = .ok f') :
    ∀ k, hasKeyA k f = true → hasKeyA k f' = true := by
  unfold addGroup at h
  repeat' split at h
  all_goals cases h
  all_goals intro k hk
  · exact hasKeyA_setKeyA_mono _ _ hk
  · exact hk
  · exact hk

/-- Successful `processQuery` output owns every non-reserved query key: no
allow-list filtering happens. -/
theorem processQuery_keys {q : List (Str × QV)} {r : Processed}
    (h : processQuery q = .ok r) :
    ∀ kv ∈ q, (reservedKeys.any (fun s => s = kv.1)) = false →
      hasKeyA kv.1 r.filter = true := by
  unfold processQuery at h
  split at h
  case _ => cases h
  case _ f0 heq0 =>
    split at h
    case _ => cases h
    case _ f1 heq1 =>
      split at h
      case _ => cases h
      case _ f2 heq2 =>
        split at h
        case _ => cases h
        case _ f3 heq3 =>
          cases h
          intro kv hm hres
          have hmem : kv ∈ q.filter (fun kv => !(reservedKeys.any (fun s => s = kv.1))) :=
            List.mem_filter.mpr ⟨hm, by simp [hres]⟩
          have h1 := (parseFields_keys heq0).1 kv hmem
          exact addGroup_keys heq3 _ (addGroup_keys heq2 _ (addGroup_keys heq1 _ h1))

/-! ### Arithmetic facts about the number model and `Math.ceil` -/

/-- `pow10` is the power function. -/
theorem pow10_eq (e : ℕ) : pow10 e = (10 : ℤ) ^ e := by
  induction e with
  | zero => rfl
  | succ e ih => rw [pow_succ, pow10, ih]; ring

/-- Canonicalization preserves the rational value. -/
theorem JNum.canon_val (e : ℕ) : ∀ a : ℤ, (JNum.canon a e).val = (a : ℚ) / 10 ^ e := by
  induction e with
  | zero => intro a; simp [JNum.canon, JNum.val]
  | succ e ih =>
    intro a
    unfold JNum.canon
    split
    case _ h =>
      rw [ih]
      obtain ⟨b, rfl⟩ : (10:ℤ) ∣ a := Int.dvd_of_emod_eq_zero h
      rw [Int.mul_ediv_cancel_left _ (by norm_num)]
      push_cast
      rw [pow_succ]
      have h10 : (10:ℚ) ^ e ≠ 0 := by positivity
      field_simp
      ring
    case _ => rfl

/-- `subOne` subtracts one from the value. -/
theorem JNum.subOne_val (n : JNum) : n.subOne.val = n.val - 1 := by
  unfold JNum.subOne
  rw [JNum.canon_val, pow10_eq, JNum.val]
  have h10 : (10:ℚ) ^ n.exp10 ≠ 0 := by positivity
  push_cast
  field_simp

/-- `mulNat` multiplies the value. -/
theorem JNum.mulNat_val (n : JNum) (k : ℕ) : (n.mulNat k).val = n.val * k := by
  unfold JNum.mulNat
  rw [JNum.canon_val, JNum.val]
  push_cast
  ring

/-- `ceilNat c ps` is the ceiling of `c / ps`: the least number of pages that
cover `c` rows. -/
theorem ceilNat_spec (c ps : ℕ) (h : 0 < ps) :
    c ≤ ceilNat c ps * ps ∧ ceilNat c ps * ps < c + ps := by
  have h1 := Nat.div_add_mod (c + ps - 1) ps
  have h2 : (c + ps - 1) % ps < ps := Nat.mod_lt _ h
  unfold ceilNat
  rw [Nat.mul_comm ((c + ps - 1) / ps) ps]
  generalize hr : (c + ps - 1) % ps = r at h1 h2
  generalize hd : (c + ps - 1) / ps = d at h1 ⊢
  generalize hm : ps * d = m at h1 ⊢
  omega

/-! ### Small evaluation lemmas for prefix tests -/

/-- A prefix test fails when the heads differ. -/
theorem isPreB_cons_ne {a b : Char} (h : decide (a = b) = false) (as bs : Str) :
    isPreB (a :: as) (b :: bs) = false := by
  simp [isPreB, h]

/-- C1, counterexample: `decode("~*foo")` is `Like` with operand `"*foo"` —
not `ILike` with operand `"foo"` as claimed (the `~` branch fires first). -/
theorem decodeValue_ilike_unreachable_cex :
    decodeValue (toS "~*foo") = .ok [(kLike, .sc (.str (toS "*foo")))]
      ∧ (decodeValue (toS "~*foo")).map (List.map Prod.fst) ≠ .ok [kIlike] :=
  ⟨rfl, by decide⟩

/-- C1, amended: for a non-range, non-comma remainder, `"~" ++ rest` decodes
to `$like rest` and `"!~" ++ rest` to `$nlike rest`; consequently `"~*" ++ r`
gives `$like ("*" ++ r)` and `"!~*" ++ r` gives `$nlike ("*" ++ r)`, and the
`$ilike` / `$nilike` branches never fire. -/
theorem decodeValue_like_family (rest : Str)
    (hn1 : jsNumberQ ('~' :: rest) = none)
    (hn2 : jsNumberQ ('!' :: '~' :: rest) = none)
    (hd1 : containsDots ('~' :: rest) = false)
    (hd2 : containsDots ('!' :: '~' :: rest) = false)
    (hc1 : ('~' :: rest).contains ',' = false)
    (hc2 : ('!' :: '~' :: rest).contains ',' = false) :
    decodeValue ('~' :: rest) = .ok [(kLike, .sc (.str rest))]
      ∧ decodeValue ('!' :: '~' :: rest) = .ok [(kNlike, .sc (.str rest))] := by
  constructor
  · unfold decodeValue
    rw [if_neg (List.cons_ne_nil _ _),
      if_neg (by intro h; injection h with h1 _; exact absurd h1 (by decide)), hn1]
    show decodeTail ('~' :: rest) = _
    unfold decodeTail
    rw [show startsW ">=" ('~' :: rest) = false from isPreB_cons_ne (by decide) _ _,
      show startsW "<=" ('~' :: rest) = false from isPreB_cons_ne (by decide) _ _,
      show startsW ">" ('~' :: rest) = false from isPreB_cons_ne (by decide) _ _,
      show startsW "<" ('~' :: rest) = false from isPreB_cons_ne (by decide) _ _,
      hd1, hc1]
    show decodeLikeNeq ('~' :: rest) = _
    unfold decodeLikeNeq
    rw [show startsW "~" ('~' :: rest) = true from by simp [startsW, toS, isPreB]]
    rfl
  · unfold decodeValue
    rw [if_neg (List.cons_ne_nil _ _),
      if_neg (by intro h; injection h; simp_all),
      hn2]
    show decodeTail ('!' :: '~' :: rest) = _
    unfold decodeTail
    rw [show startsW ">=" ('!' :: '~' :: rest) = false from isPreB_cons_ne (by decide) _ _,
      show startsW "<=" ('!' :: '~' :: rest) = false from isPreB_cons_ne (by decide) _ _,
      show startsW ">" ('!' :: '~' :: rest) = false from isPreB_cons_ne (by decide) _ _,
      show startsW "<" ('!' :: '~' :: rest) = false from isPreB_cons_ne (by decide) _ _,
      hd2, hc2]
    show decodeLikeNeq ('!' :: '~' :: rest) = _
    unfold decodeLikeNeq
    rw [show startsW "~" ('!' :: '~' :: rest) = false from isPreB_cons_ne (by decide) _ _,
      show startsW "!~" ('!' :: '~' :: rest) = true from by simp [startsW, toS, isPreB]]
    rfl

/-- C1, witness: the amended family evaluated at `rest = "*foo"`. -/
theorem decodeValue_like_family_witness :
    decodeValue (toS "~*foo") = .ok [(kLike, .sc (.str (toS "*foo")))]
      ∧ decodeValue (toS "!~*foo") = .ok [(kNlike, .sc (.str (toS "*foo")))] :=
  decodeValue_like_family (toS "*foo") rfl rfl rfl rfl rfl rfl

/-- C2: the coercion chain is ordered as claimed, but a fractional numeric
token such as `"1.5"` does not coerce to a number: `Number.isSafeInteger(1.5)`
is false, so `castValue` falls into `BigInt("1.5")`, which throws a
`SyntaxError` instead of returning `Number(1.5)`. -/
theorem castValue_bug_on_float :
    castValue (toS "1.5") = .error .bigIntSyntax
      ∧ castValue (toS "true") = .ok (.bool true)
      ∧ castValue (toS "42") = .ok (.num ⟨42, 0⟩)
      ∧ castValue (toS "99999999999999999999") = .ok (.big 99999999999999999999)
      ∧ castValue (toS "not-a-number") = .ok (.str (toS "not-a-number")) :=
  ⟨by decide, rfl, rfl, rfl, rfl⟩

/-- C10: every successful decode carries exactly one operator key, and the
multi-key `Not implemented` branch of `handleArray` can never be taken. -/
theorem decodeValue_single_key_multi_unreachable :
    (∀ (s : Str) (r : List (Str × JVal)), decodeValue s = .ok r → r.length = 1)
      ∧ ∀ vs : List Str, handleArray vs ≠ .error .notImplementedMultiKey :=
  ⟨fun _ _ h => decodeValue_length h, handleArray_ne_multi⟩

/-- C10, witness: the single-key property applied at `"5"` and the
unreachability applied at `["5"]`. -/
theorem decodeValue_single_key_multi_unreachable_witness :
    ([(kEq, JVal.sc (.num ⟨5, 0⟩))] : List (Str × JVal)).length = 1
      ∧ handleArray [toS "5"] ≠ .error .notImplementedMultiKey :=
  ⟨decodeValue_single_key_multi_unreachable.1 (toS "5") _ rfl,
   decodeValue_single_key_multi_unreachable.2 [toS "5"]⟩

/-- C7: two occurrences of a filter key whose decodes produce the same single
operator key merge into `$and` of both decoded records — the second does not
overwrite the first. -/
theorem handleArray_merges_duplicates (v1 v2 : Str) (k : Str) (d1 d2 : JVal)
    (h1 : decodeValue v1 = .ok [(k, d1)]) (h2 : decodeValue v2 = .ok [(k, d2)]) :
    handleArray [v1, v2] =
      .ok [(kAnd, .arr [.obj [(k, d1)], .obj [(k, d2)]])] := by
  have hk : k ≠ kAnd := decodeValue_key h1
  have hk' : kAnd ≠ k := Ne.symm hk
  simp [handleArray, handleArrayGo, h1, h2, hasKeyA, lookupA, setKeyA, removeKeyA, hk, hk']

/-- C7, witness: the merge evaluated at `["~a", "~b"]`. -/
theorem handleArray_merges_duplicates_witness :
    handleArray [toS "~a", toS "~b"] =
      .ok [(kAnd, .arr [.obj [(kLike, .sc (.str (toS "a")))],
        .obj [(kLike, .sc (.str (toS "b")))]])] :=
  handleArray_merges_duplicates _ _ _ _ _ rfl rfl

/-- C3, counterexample: the filter parser accepts a key outside any
allow-list — `processQuery` takes no allow-list at all, decodes the unknown
key `email` into the filter and succeeds rather than failing with
`UnknownFilterField`. -/
theorem processQuery_no_allowlist_cex :
    (processQuery [(toS "email", QV.one (toS "1"))]).map Processed.filter
        = .ok [(toS "email", .obj [(kEq, .sc (.num ⟨1, 0⟩))])]
      ∧ processQuery [(toS "email", QV.one (toS "1"))]
          ≠ .error (.unknownFilterField (toS "email")) := by
  refine ⟨rfl, ?_⟩
  intro h
  have h2 := congrArg (Except.map Processed.filter) h
  have h1 : (processQuery [(toS "email", QV.one (toS "1"))]).map Processed.filter
      = .ok [(toS "email", .obj [(kEq, .sc (.num ⟨1, 0⟩))])] := rfl
  rw [h1] at h2
  cases h2

/-- C3, amended: the parser performs no allow-list validation: every
non-reserved key of the query ends up in the returned filter object, and no
failure of `processQuery` is an `UnknownFilterField` error. -/
theorem processQuery_ignores_allowlist (q : List (Str × QV)) :
    (∀ r, processQuery q = .ok r →
        ∀ kv ∈ q, (reservedKeys.any (fun s => s = kv.1)) = false →
          hasKeyA kv.1 r.filter = true)
      ∧ (∀ e, processQuery q = .error e → ∀ k, e ≠ .unknownFilterField k) := by
  constructor
  · intro r h kv hm hres
    exact processQuery_keys h kv hm hres
  · intro e h k
    rcases processQuery_error h with h' | h' | h' | h' | ⟨msg, h'⟩ <;> subst h' <;> simp

/-- C3, witness: the amended statement applied to the single-key query
`email=1`. -/
theorem processQuery_ignores_allowlist_witness :
    hasKeyA (toS "email")
      (Processed.mk [(toS "email", JVal.obj [(kEq, .sc (.num ⟨1, 0⟩))])]
        (some ⟨1, 0⟩) (some ⟨10, 0⟩) (QV.one (toS "id")) (QV.one [])).filter = true :=
  (processQuery_ignores_allowlist [(toS "email", QV.one (toS "1"))]).1
    _ rfl (toS "email", QV.one (toS "1")) (by simp) (by decide)

/-- Concrete two-column retrieve/list schema used by the witnesses. -/
def zodIdName : ZodObj :=
  ⟨[("id", fun v => jsTypeof v = "number"), ("name", fun v => jsTypeof v = "string")]⟩

/-- Concrete single-column update schema used by the witnesses. -/
def zodOnlyName : ZodObj := ⟨[("name", fun v => jsTypeof v = "string")]⟩

/-- First fixture row. -/
def rowW1 : Row := [("id", .num ⟨1, 0⟩), ("name", .str (toS "a"))]

/-- Second fixture row. -/
def rowW2 : Row := [("id", .num ⟨2, 0⟩), ("name", .str (toS "b"))]

/-- Fixture table. -/
def rowsW : List Row := [rowW1, rowW2]

/-- C4, counterexample: `retrieve` over an empty table does not return
`NotFound`; it parses `undefined` against the retrieve schema and fails with
a schema-validation error. -/
theorem retrieveOp_zero_rows_cex :
    retrieveOp [] "id" (.num ⟨1, 0⟩) zodIdName = .error .zodError
      ∧ retrieveOp [] "id" (.num ⟨1, 0⟩) zodIdName ≠ .error .notFound :=
  ⟨by decide, by decide⟩

/-- C4, amended: with zero matching rows `retrieve` fails with the Zod
schema-validation error (`schema.parse(undefined)`), not `NotFound`; with
exactly one matching row it returns that row validated against the retrieve
schema. -/
theorem retrieveOp_spec (rows : List Row) (pkCol : String) (pkVal : Scalar)
    (z : ZodObj) :
    (rows.filter (rowMatches pkCol pkVal) = [] →
        retrieveOp rows pkCol pkVal z = .error .zodError)
      ∧ (∀ r, rows.filter (rowMatches pkCol pkVal) = [r] →
          retrieveOp rows pkCol pkVal z = zodFields z.fields (projRow z r)) := by
  constructor
  · intro h
    unfold retrieveOp
    rw [h]
    rfl
  · intro r h
    unfold retrieveOp
    rw [h]
    rfl

/-- C4, witness: the amended statement at an empty table and at a one-match
table. -/
theorem retrieveOp_spec_witness :
    retrieveOp [] "id" (Scalar.num ⟨1, 0⟩) zodIdName = .error .zodError
      ∧ retrieveOp rowsW "id" (Scalar.num ⟨1, 0⟩) zodIdName
          = zodFields zodIdName.fields (projRow zodIdName rowW1) :=
  ⟨(retrieveOp_spec [] "id" (Scalar.num ⟨1, 0⟩) zodIdName).1 rfl,
   (retrieveOp_spec rowsW "id" (Scalar.num ⟨1, 0⟩) zodIdName).2 rowW1 (by decide)⟩

/-- C9: a successful update validates the body against the update schema and
returns the updated row validated against the *retrieve* schema. -/
theorem updateOp_returns_retrieve_schema (rows : List Row) (pkCol : String)
    (pkVal : Scalar) (zUpdate zRetrieve : ZodObj) (body values : Row)
    (h : zodParse zUpdate (some body) = .ok values) :
    updateOp rows pkCol pkVal zUpdate zRetrieve body
      = zodParse zRetrieve
          (((rows.filter (rowMatches pkCol pkVal)).map
            (fun r => setRowVals r values)).head?) := by
  unfold updateOp
  rw [h]

/-- C9, witness: with distinct update (`name` only) and retrieve
(`id`, `name`) schemas, the update payload is shaped by the retrieve schema
and differs from the update-schema validation of the same row. -/
theorem updateOp_returns_retrieve_schema_witness :
    updateOp rowsW "id" (.num ⟨1, 0⟩) zodOnlyName zodIdName
        [("name", .str (toS "z")), ("junk", .null)]
      = .ok [("id", .num ⟨1, 0⟩), ("name", .str (toS "z"))]
    ∧ updateOp rowsW "id" (.num ⟨1, 0⟩) zodOnlyName zodIdName
        [("name", .str (toS "z")), ("junk", .null)]
      ≠ zodParse zodOnlyName (some (setRowVals rowW1 [("name", .str (toS "z"))])) := by
  have h := updateOp_returns_retrieve_schema rowsW "id" (.num ⟨1, 0⟩) zodOnlyName
    zodIdName [("name", .str (toS "z")), ("junk", .null)] [("name", .str (toS "z"))]
    (by decide)
  exact ⟨h.trans (by decide), by decide⟩

/-- C5, counterexample: a paginated list over zero matching rows does not
succeed with `count = 0, pageCount = 0`; reading `results[0].count` throws a
`TypeError`. -/
theorem listOp_zero_rows_cex :
    listOp [] (some "1") CanPaginate.auto 10 zodIdName
        = .error (.jsError "TypeError: cannot read count of undefined")
      ∧ listOp [] (some "1") CanPaginate.auto 10 zodIdName
          ≠ .ok (.paged (some ⟨1, 0⟩) 10 0 0 []) :=
  ⟨by decide, by decide⟩

/-- C5, amended: whenever the paginated list returns an envelope (the page
slice was non-empty), `count` is the window count of all matching rows and
`pageCount` is exactly `⌈count / pageSize⌉` — the least page total covering
`count`; a zero-row result instead throws (see the counterexample). -/
theorem listOp_pageCount_ceil (allRows : List Row) (qp : Option String)
    (cp : CanPaginate) (ps : ℕ) (z : ZodObj) (hps : 0 < ps)
    {pn : Option JNum} {psz count pc : ℕ} {res : List Row}
    (h : listOp allRows qp cp ps z = .ok (.paged pn psz count pc res)) :
    psz = ps ∧ count = allRows.length
      ∧ count ≤ pc * ps ∧ pc * ps < count + ps := by
  unfold listOp at h
  repeat' split at h
  all_goals (try cases h)
  exact ⟨rfl, rfl, (ceilNat_spec _ _ hps).1, (ceilNat_spec _ _ hps).2⟩

/-- C5, witness: the ceiling law evaluated at a two-row table with page size
one. -/
theorem listOp_pageCount_ceil_witness :
    (1 : ℕ) = 1 ∧ (2 : ℕ) = 2 ∧ 2 ≤ 2 * 1 ∧ 2 * 1 < 2 + 1 := by
  have h : listOp rowsW (some "1") CanPaginate.auto 1 zodIdName
      = .ok (.paged (some ⟨1, 0⟩) 1 2 2 [[("id", .num ⟨1, 0⟩), ("name", .str (toS "a"))]]) := by
    decide
  exact listOp_pageCount_ceil rowsW (some "1") CanPaginate.auto 1 zodIdName (by decide) h

/-- C6, counterexample: a supplied page parameter `"0"` is a truthy string,
so the page does not default to 1: the page variable is 0 and the offset is
`-pageSize`, not 0. -/
theorem resolvePagination_page0_cex :
    resolvePagination (some "0") CanPaginate.auto 24
        = ⟨true, some ⟨0, 0⟩, some ⟨-24, 0⟩⟩
      ∧ (resolvePagination (some "0") CanPaginate.auto 24).pageNum ≠ some ⟨1, 0⟩
      ∧ (resolvePagination (some "0") CanPaginate.auto 24).offset ≠ some ⟨0, 0⟩ :=
  ⟨by decide, by decide, by decide⟩

/-- C6, amended: pagination is enabled exactly for `Forced`, or `Auto` with a
supplied page parameter; the page defaults to 1 only when the parameter is
absent or the empty string (any other value, including `"0"` or negatives,
is used as given); and the offset is always `(page - 1) * pageSize`. -/
theorem resolvePagination_spec (qp : Option String) (cp : CanPaginate) (ps : ℕ) :
    ((resolvePagination qp cp ps).enabled = true
        ↔ (cp = .forced ∨ (cp = .auto ∧ qp ≠ none)))
      ∧ ((qp = none ∨ qp = some "") →
          (resolvePagination qp cp ps).pageNum = some ⟨1, 0⟩)
      ∧ (∀ s, qp = some s → s ≠ "" →
          (resolvePagination qp cp ps).pageNum = jsNumberQ s.toList)
      ∧ (∀ p, (resolvePagination qp cp ps).pageNum = some p →
          (resolvePagination qp cp ps).offset = some (p.subOne.mulNat ps)
            ∧ (p.subOne.mulNat ps).val = (p.val - 1) * ps) := by
  refine ⟨?_, ?_, ?_, ?_⟩
  · rcases cp <;> rcases qp with _ | s <;> simp [resolvePagination]
  · rintro (rfl | rfl) <;> rfl
  · rintro s rfl hs
    simp [resolvePagination, pageVar, hs]
  · intro p hp
    constructor
    · simp only [resolvePagination] at hp ⊢
      rw [hp]
      rfl
    · rw [JNum.mulNat_val, JNum.subOne_val]

/-! ### Ordering accumulation -/

/-- The cleaned field of one ordering token (`part.replace(/^[-]/, '')`). -/
def cleanTok (t : Str) : Str := if startsW "-" t then t.drop 1 else t

/-- `parseTok` cleans the leading dash off the field name. -/
theorem parseTok_fst (t : Str) : (parseTok t).1 = cleanTok t := by
  unfold parseTok cleanTok
  split <;> rfl

/-- A key that is absent from no entry is absent. -/
theorem hasKeyA_eq_false_iff {α : Type} {k : Str} {l : List (Str × α)} :
    hasKeyA k l = false ↔ ∀ p ∈ l, p.1 ≠ k := by
  induction l with
  | nil => simp [hasKeyA]
  | cons p t ih =>
    unfold hasKeyA
    simp only [Bool.or_eq_false_iff, List.mem_cons, decide_eq_false_iff_not]
    constructor
    · rintro ⟨h1, h2⟩ q (rfl | hq)
      · exact h1
      · exact ih.mp h2 q hq
    · intro h
      exact ⟨h p (Or.inl rfl), ih.mpr (fun q hq => h q (Or.inr hq))⟩

/-- Writing an absent key appends it. -/
theorem setKeyA_of_not_has {α : Type} {k : Str} {l : List (Str × α)}
    (h : hasKeyA k l = false) (v : α) : setKeyA k v l = l ++ [(k, v)] := by
  induction l with
  | nil => rfl
  | cons p t ih =>
    unfold setKeyA
    unfold hasKeyA at h
    rcases Bool.or_eq_false_iff.mp h with ⟨h1, h2⟩
    rw [if_neg (by simpa using h1)]
    rw [ih h2]
    simp

/-- Presence of a key in an appended object. -/
theorem hasKeyA_append {α : Type} (k : Str) (l1 l2 : List (Str × α)) :
    hasKeyA k (l1 ++ l2) = (hasKeyA k l1 || hasKeyA k l2) := by
  induction l1 with
  | nil => simp [hasKeyA]
  | cons p t ih =>
    simp only [List.cons_append, List.append_eq, hasKeyA, ih, Bool.or_assoc]

/-- Folding `acc[column] = direction` over pairwise-fresh keys appends them
in order. -/
theorem foldl_setKeyA_nodup {α : Type} (ps : List (Str × α)) :
    ∀ acc, (∀ p ∈ ps, hasKeyA p.1 acc = false) → (ps.map Prod.fst).Nodup →
      ps.foldl (fun a p => setKeyA p.1 p.2 a) acc = acc ++ ps := by
  induction ps with
  | nil => intro acc _ _; simp
  | cons p t ih =>
    intro acc hfresh hnodup
    simp only [List.foldl_cons]
    rw [setKeyA_of_not_has (hfresh p (by simp)) p.2]
    rw [List.map_cons] at hnodup
    have hnd := List.nodup_cons.mp hnodup
    rw [ih (acc ++ [(p.1, p.2)]) ?_ hnd.2]
    · simp
    · intro q hq
      rw [hasKeyA_append]
      have hq1 : hasKeyA q.1 acc = false := hfresh q (List.mem_cons_of_mem _ hq)
      have hq2 : (decide (p.1 = q.1)) = false := by
        refine decide_eq_false_iff_not.mpr (fun hc => ?_)
        exact hnd.1 (hc ▸ List.mem_map_of_mem Prod.fst hq)
      simp [hq1, hasKeyA, hq2]

/-- `split` never yields an empty token list. -/
theorem splitOnChar_ne_nil (sep : Char) (s : Str) : splitOnChar sep s ≠ [] := by
  induction s with
  | nil => simp [splitOnChar]
  | cons c t ih =>
    unfold splitOnChar
    split
    · simp
    · split
      · simp
      · simp

/-- C6, witness: `Auto` with `page=2` and page size 24 — enabled, page 2,
offset of value `(2 - 1) * 24`. -/
theorem resolvePagination_spec_witness :
    (resolvePagination (some "2") CanPaginate.auto 24).enabled = true
      ∧ (resolvePagination (some "2") CanPaginate.auto 24).offset
          = some ((JNum.mk 2 0).subOne.mulNat 24)
      ∧ ((JNum.mk 2 0).subOne.mulNat 24).val = ((JNum.mk 2 0).val - 1) * 24 := by
  refine ⟨?_, ?_, ?_⟩
  · exact (resolvePagination_spec (some "2") CanPaginate.auto 24).1.mpr
      (Or.inr ⟨rfl, by simp⟩)
  · exact ((resolvePagination_spec (some "2") CanPaginate.auto 24).2.2.2
      ⟨2, 0⟩ (by decide)).1
  · exact ((resolvePagination_spec (some "2") CanPaginate.auto 24).2.2.2
      ⟨2, 0⟩ (by decide)).2

/-- C8: a token outside the allow-list regex fails the Zod validation; when
every token is an allow-listed field with optional leading dash (and the
cleaned fields are pairwise distinct, as in the claim's examples), the parser
returns the tokens in order, a leading `-` mapping to descending and its
absence to ascending. -/
theorem parseOrderQueryString_spec (s : Str) (fields : List Str) (hs : s ≠ []) :
    ((∃ t ∈ splitOnChar ',' s, orderTokOK fields t = false) →
        parseOrderQueryString s fields = .error .zodError)
      ∧ ((∀ t ∈ splitOnChar ',' s, orderTokOK fields t = true) →
          ((splitOnChar ',' s).map cleanTok).Nodup →
            parseOrderQueryString s fields
              = .ok (some ((splitOnChar ',' s).map parseTok))) := by
  constructor
  · rintro ⟨t, ht, htok⟩
    unfold parseOrderQueryString
    rw [if_neg ?_]
    simp only [regexAccepts, Bool.or_eq_true, decide_eq_true_eq, List.all_eq_true, not_or]
    refine ⟨hs, fun hfor => ?_⟩
    have hc := hfor t ht
    rw [htok] at hc
    cases hc
  · intro hall hnodup
    have hb : buildOrdering s = (splitOnChar ',' s).map parseTok := by
      unfold buildOrdering
      rw [foldl_setKeyA_nodup _ [] (fun p _ => rfl) ?_]
      · simp
      · rw [List.map_map]
        have : (Prod.fst ∘ parseTok) = cleanTok := funext parseTok_fst
        rw [this]
        exact hnodup
    unfold parseOrderQueryString
    rw [if_pos ?_, hb, if_pos ?_]
    · have hne := splitOnChar_ne_nil ',' s
      have : (splitOnChar ',' s).map parseTok ≠ [] := by
        intro hc
        exact hne (List.map_eq_nil_iff.mp hc)
      simpa [List.length_pos] using this
    · simp only [regexAccepts, Bool.or_eq_true, List.all_eq_true]
      exact Or.inr hall

/-- C8, witness: `parseOrdering("-name,age", {name, age})` yields name
descending then age ascending, and `parseOrdering("email", {name, age})`
fails. -/
theorem parseOrderQueryString_spec_witness :
    parseOrderQueryString (toS "-name,age") [toS "name", toS "age"]
        = .ok (some [(toS "name", Dir.desc), (toS "age", Dir.asc)])
      ∧ parseOrderQueryString (toS "email") [toS "name", toS "age"]
        = .error .zodError := by
  constructor
  · have h := (parseOrderQueryString_spec (toS "-name,age") [toS "name", toS "age"]
      (by decide)).2 (by decide) (by decide)
    exact h.trans (by decide)
  · exact (parseOrderQueryString_spec (toS "email") [toS "name", toS "age"]
      (by decide)).1 ⟨toS "email", by decide, by decide⟩
